import Mathlib

/-!
Verification of the record-reconciliation and download engine of CMIP6py
(`cmip6py/data/file.py`, `cmip6py/data/dataset.py`, `cmip6py/commons/utils.py`,
`cmip6py/commons/constants.py`).

The Python code is shallowly embedded: raw `pyesgf` search results become the
`RawRecord` structure (with the fields the code actually reads: the filename
stem, the data node, the facets making up the replica-class key, the download
url and checksum metadata); `CMIP6Entry`, `CMIP6File` and `CMIP6Dataset`
mirror the classes of the same names.  Python's `sorted(key=...)` is a stable
sort under the total preorder induced by the key, so it is embedded as
`List.insertionSort` with the pointwise key comparison: both compute the one
permutation that is sorted and keeps elements with equal keys in input order.
`itertools.groupby` followed by taking the head of every group is embedded as
`dedupRuns`, and calls that can raise (`list.index` on a missing element,
`strptime` on a malformed stamp) are embedded as `Option`-valued functions.
Filesystem and network effects are modelled by explicit oracle parameters.
-/

namespace CMIP6py

/-- RESULTS_FACETS_ORDERING["table_id"] from `cmip6py/commons/constants.py`. -/
def tableIdPriority : List String := ["Eday", "day", "Oday"]

/-- RESULTS_FACETS_ORDERING["grid_label"] from `cmip6py/commons/constants.py`. -/
def gridLabelPriority : List String :=
  ["gn", "gr", "gr1", "gr2", "gr3", "gr4", "gr5", "gr6", "gr7", "gr8", "gr9"]

/-- Numeric value of a list of decimal digit characters (most significant first). -/
def digitsToNat (ds : List Char) : Nat :=
  ds.foldl (fun acc c => acc * 10 + (c.toNat - 48)) 0

/-- Embedding of `datetime.strptime(version, "v%Y%m%d")`: a version stamp is the
letter v followed by eight decimal digits (four-digit year, two-digit month,
two-digit day).  Returns the stamp as the number YYYYMMDD, whose numeric order
coincides with the chronological order `convert_version_to_datetime` induces,
or `none` when parsing fails (the Python code raises). -/
def parseVersion (s : String) : Option Nat :=
  match s.toList with
  | 'v' :: ds => if ds.length = 8 && ds.all Char.isDigit then some (digitsToNat ds) else none
  | _ => none

/-- Chronological value of a version stamp that is known to parse
(`convert_version_to_datetime` in `cmip6py/commons/utils.py`). -/
def versionValue (s : String) : Nat := (parseVersion s).getD 0

/-- Lexicographic order on the three-component sort keys produced by the two
`get_sort_key` closures (Python compares key tuples lexicographically). -/
def lex3Le (a b : Nat × Nat × Nat) : Prop :=
  a.1 < b.1 ∨ (a.1 = b.1 ∧ (a.2.1 < b.2.1 ∨ (a.2.1 = b.2.1 ∧ a.2.2 ≤ b.2.2)))

instance : DecidableRel lex3Le := fun _ _ =>
  inferInstanceAs (Decidable (_ ∨ _))

/-- Code-point lexicographic strict order on character lists: exactly the
comparison Python performs on strings (a strict prefix is smaller). -/
def charListLt : List Char → List Char → Bool
  | [], [] => false
  | [], _ :: _ => true
  | _ :: _, [] => false
  | a :: as, b :: bs => if a < b then true else if b < a then false else charListLt as bs

/-- Python's strict string comparison. -/
def strLt (a b : String) : Prop := charListLt a.data b.data = true

instance : DecidableRel strLt := fun _ _ =>
  inferInstanceAs (Decidable (_ = true))

/-- Python's non-strict string comparison, the negation of the reversed
strict one. -/
def strLe (a b : String) : Prop := charListLt b.data a.data = false

instance : DecidableRel strLe := fun _ _ =>
  inferInstanceAs (Decidable (_ = false))

/-- Lexicographic order on string pairs, as Python compares the
`(entry.name, entry.data_node)` tuples of `same_entry`. -/
def pairLe (a b : String × String) : Prop :=
  strLt a.1 b.1 ∨ (a.1 = b.1 ∧ strLe a.2 b.2)

instance : DecidableRel pairLe := fun _ _ =>
  inferInstanceAs (Decidable (_ ∨ _))

/-- Order instantiating Python's `sorted(..., reverse=True)` over strings:
the stamp sorted towards the front is the larger one. -/
def strGe (a b : String) : Prop := strLe b a

instance : DecidableRel strGe := fun _ _ =>
  inferInstanceAs (Decidable (_ = false))

/-- Inner loop of `dedupRuns`: skip elements whose key equals the key of the
group currently open, keep the first element of every newly opened group. -/
def dedupRunsAux {α β : Type} [DecidableEq β] (k : α → β) (cur : β) : List α → List α
  | [] => []
  | b :: rest =>
      if k b = cur then dedupRunsAux k cur rest
      else b :: dedupRunsAux k (k b) rest

/-- Embedding of `itertools.groupby(l, key=k)` followed by keeping the first
member of every group: the head of each maximal run of consecutive elements
sharing a key survives. -/
def dedupRuns {α β : Type} [DecidableEq β] (k : α → β) : List α → List α
  | [] => []
  | a :: rest => a :: dedupRunsAux k (k a) rest

/-- One raw per-node search hit, carrying exactly the fields the reconciliation
code reads from a `pyesgf` `FileResult`: the filename stem (`Path(...).stem`),
the data node, the facets forming the replica-class key (the version already
extracted from the dataset identifier by `get_version`), the download url,
size, and the optional checksum pair. -/
structure RawRecord where
  name : String
  data_node : String
  table_id : String
  version : String
  grid_label : String
  url : String
  size : Nat
  checksum_type : Option String
  checksum : String
deriving DecidableEq, Repr

/-- Replica-class key: the `(table_id, version, grid_label)` triple. -/
abbrev EntryKey := String × String × String

/-- Embedding of the `CMIP6Entry` wrapper from `cmip6py/data/file.py`: the
fields its constructor copies out of the raw result. -/
structure CMIP6Entry where
  name : String
  data_node : String
  table_id : String
  version : String
  grid_label : String
  url : String
  size : Nat
  checksum_type : Option String
  checksum : String
deriving DecidableEq, Repr

/-- Embedding of `CMIP6Entry.__init__` on an already-parsed raw record. -/
def CMIP6Entry.ofResult (r : RawRecord) : CMIP6Entry :=
  { name := r.name, data_node := r.data_node, table_id := r.table_id,
    version := r.version, grid_label := r.grid_label, url := r.url,
    size := r.size, checksum_type := r.checksum_type, checksum := r.checksum }

/-- Replica-class key of an entry, `self.entry_key` in `CMIP6Entry.__init__`. -/
def CMIP6Entry.entry_key (e : CMIP6Entry) : EntryKey :=
  (e.table_id, e.version, e.grid_label)

/-- Dedup identity of an entry, the `same_entry` closure of
`CMIP6File._convert_to_sorted_entries`. -/
def CMIP6Entry.dedupKey (e : CMIP6Entry) : String × String := (e.name, e.data_node)

/-- Records whose version stamp parses survive the first pass of
`CMIP6File._convert_to_sorted_entries`. -/
def recordValid (r : RawRecord) : Bool := (parseVersion r.version).isSome

/-- Vocabulary check: `list.index` in the file-level `get_sort_key` raises
unless the record's table kind and grid label occur in the fixed priority
lists. -/
def recordVocabOk (r : RawRecord) : Bool :=
  decide (r.table_id ∈ tableIdPriority) && decide (r.grid_label ∈ gridLabelPriority)

/-- Version stamps of the surviving records, sorted latest-first: the
`versions` list of `CMIP6File._convert_to_sorted_entries`.  Kept with
multiplicity exactly as the Python list is. -/
def fileVersions (results : List RawRecord) : List String :=
  ((results.filter recordValid).map (fun r => r.version)).insertionSort strGe

/-- Sort key of the file-level `get_sort_key` closure: table-kind rank in the
fixed priority list, then position of the record's version among the
latest-first version list, then grid-label rank. -/
def resultSortKey (versions : List String) (r : RawRecord) : Nat × Nat × Nat :=
  (tableIdPriority.indexOf r.table_id, versions.indexOf r.version,
   gridLabelPriority.indexOf r.grid_label)

/-- Order the file-level `sorted(results, key=get_sort_key)` call uses. -/
def resultOrder (versions : List String) (r1 r2 : RawRecord) : Prop :=
  lex3Le (resultSortKey versions r1) (resultSortKey versions r2)

instance (versions : List String) : DecidableRel (resultOrder versions) := fun _ _ =>
  inferInstanceAs (Decidable (lex3Le _ _))

/-- Order of the dedup pass `sorted(entries, key=same_entry)`. -/
def entryIdOrder (e1 e2 : CMIP6Entry) : Prop := pairLe e1.dedupKey e2.dedupKey

instance : DecidableRel entryIdOrder := fun _ _ =>
  inferInstanceAs (Decidable (pairLe _ _))

/-- Embedding of `CMIP6File._convert_to_sorted_entries`: drop records whose
version stamp fails to parse, sort the remaining records by the composite
priority key (raising, i.e. `none`, when a table kind or grid label is outside
the fixed vocabulary), convert to entries, then sort by `(name, data_node)`
and collapse each run of identical `(name, data_node)` pairs to its first
member. -/
def convertToSortedEntries (results : List RawRecord) : Option (List CMIP6Entry) :=
  let valid := results.filter recordValid
  if valid.all recordVocabOk then
    let sortedResults := valid.insertionSort (resultOrder (fileVersions results))
    let entries := sortedResults.map CMIP6Entry.ofResult
    some (dedupRuns CMIP6Entry.dedupKey (entries.insertionSort entryIdOrder))
  else none

/-- Embedding of `CMIP6File`, keeping the fields the dataset-level claims
read: the ordered entry sequence and the temporal coverage years.  The
`entry_keys` attribute is the pointwise image of the entries, as established
by `CMIP6File.__init__` and preserved by every derived copy. -/
structure CMIP6File where
  entries : List CMIP6Entry
  start_year : Int
  end_year : Int
deriving DecidableEq, Repr

/-- Ordered replica-class keys of a file (`self.entry_keys`). -/
def CMIP6File.entry_keys (f : CMIP6File) : List EntryKey :=
  f.entries.map CMIP6Entry.entry_key

/-- Embedding of `CMIP6Dataset`, keeping the fields the claims read: the
constituent files and the sorted common replica-class-key list
(`self.entry_keys_set`). -/
structure CMIP6Dataset where
  files : List CMIP6File
  entry_keys_set : List EntryKey
deriving DecidableEq, Repr

/-- The running intersection loop inside `CMIP6Dataset._intersect_entry_keys`:
fold over every file (the first file included, exactly as the Python loop
revisits `files[0]`); when the running set is empty it is replaced wholesale
by the current file's key set, otherwise it is intersected with it.  The
Python `set` is represented by a duplicate-free list. -/
def runningIntersection (init : List EntryKey) (files : List CMIP6File) : List EntryKey :=
  files.foldl
    (fun acc f =>
      if acc.isEmpty then f.entry_keys.dedup
      else acc.filter (fun k => decide (k ∈ f.entry_keys)))
    init

/-- A replica-class key every dataset-level rank lookup succeeds on: table
kind and grid label inside the fixed priority vocabularies and a parseable
version stamp.  `list.index` and `convert_version_to_datetime` raise on
anything else. -/
def keyWF (k : EntryKey) : Bool :=
  decide (k.1 ∈ tableIdPriority) && (parseVersion k.2.1).isSome &&
    decide (k.2.2 ∈ gridLabelPriority)

/-- Sort key of the dataset-level `get_sort_key` closure: table-kind rank,
then the position of the key's parsed version stamp inside `versions`, then
grid-label rank. -/
def entryKeySortKey (versions : List Nat) (k : EntryKey) : Nat × Nat × Nat :=
  (tableIdPriority.indexOf k.1, versions.indexOf (versionValue k.2.1),
   gridLabelPriority.indexOf k.2.2)

/-- Order of the dataset-level `sorted(entry_keys_set, key=get_sort_key)`
call. -/
def entryKeyOrder (versions : List Nat) (k1 k2 : EntryKey) : Prop :=
  lex3Le (entryKeySortKey versions k1) (entryKeySortKey versions k2)

instance (versions : List Nat) : DecidableRel (entryKeyOrder versions) := fun _ _ =>
  inferInstanceAs (Decidable (lex3Le _ _))

/-- The sorting tail of `CMIP6Dataset._intersect_entry_keys`: parse every
version stamp in the intersection, sort the parsed stamps ascending (the
Python call is `sorted(...)` with no `reverse` flag, over datetimes), and
order the keys by the composite sort key.  `none` models the exception the
Python code raises when a stamp fails to parse or a facet is outside the
fixed vocabulary. -/
def sortEntryKeys (ks : List EntryKey) : Option (List EntryKey) :=
  if ks.all keyWF then
    let versions := (ks.map (fun k => versionValue k.2.1)).insertionSort (fun a b => a ≤ b)
    some (ks.insertionSort (entryKeyOrder versions))
  else none

/-- Embedding of `CMIP6Dataset.__init__` restricted to the fields the claims
read: `none` models the exceptions the constructor can raise (indexing
`files[0]` of an empty list, or a rank lookup failing while sorting the
intersection). -/
def mkDataset (files : List CMIP6File) : Option CMIP6Dataset :=
  match files with
  | [] => none
  | f0 :: _ =>
      (sortEntryKeys (runningIntersection f0.entry_keys.dedup files)).map
        (fun ks => { files := files, entry_keys_set := ks })

/-- Embedding of `CMIP6File.sample_entry_key`: the first entry whose
replica-class key matches, `none` when `list.index` raises `ValueError`. -/
def CMIP6File.sample_entry_key (f : CMIP6File) (k : EntryKey) : Option CMIP6Entry :=
  f.entries.find? (fun e => decide (e.entry_key = k))

/-- Embedding of `CMIP6Dataset.sample_entry_key`: sample the matching entry
from every file; the whole list comprehension raises (`none`) as soon as one
file lacks the key. -/
def CMIP6Dataset.sample_entry_key (d : CMIP6Dataset) (k : EntryKey) : Option (List CMIP6Entry) :=
  d.files.mapM (fun f => f.sample_entry_key k)

/-- Result of a dataset download attempt that did not return: either the
`ValueError` escaping `sample_entry_key` when a candidate key is missing from
some file, or the `DownloadError` aggregating every attempted key's collected
error list after all candidates are exhausted. -/
inductive DatasetDownloadError (ε : Type) where
  | keyNotFound (k : EntryKey)
  | exhausted (errs : List (EntryKey × List ε))
deriving DecidableEq, Repr

/-- Embedding of `CMIP6Dataset._donwload_entry`: run one replica download,
catching any raised error; returns the `(local_file, error)` pair. -/
def downloadOneEntry {ε σ : Type} (dl : CMIP6Entry → Except ε σ) (e : CMIP6Entry) :
    Option σ × Option ε :=
  match dl e with
  | Except.ok s => (some s, none)
  | Except.error err => (none, some err)

/-- Local paths collected for one candidate key (successful downloads, in
submission order; the thread pool of the source is modelled sequentially). -/
def keyLocalFiles {ε σ : Type} (dl : CMIP6Entry → Except ε σ) (entries : List CMIP6Entry) :
    List σ :=
  (entries.map (downloadOneEntry dl)).filterMap (fun p => p.1)

/-- Errors collected for one candidate key. -/
def keyErrors {ε σ : Type} (dl : CMIP6Entry → Except ε σ) (entries : List CMIP6Entry) :
    List ε :=
  (entries.map (downloadOneEntry dl)).filterMap (fun p => p.2)

/-- The candidate-key loop of `CMIP6Dataset.download`: keys are attempted in
order; a key whose combination collects zero errors returns its local files
at once; otherwise its error list is recorded and the next key is tried;
exhaustion raises the aggregate error over every attempted key. -/
def downloadLoop {ε σ : Type} (d : CMIP6Dataset) (dl : CMIP6Entry → Except ε σ) :
    List EntryKey → List (EntryKey × List ε) → Except (DatasetDownloadError ε) (List σ)
  | [], acc => Except.error (DatasetDownloadError.exhausted acc)
  | k :: rest, acc =>
      match d.sample_entry_key k with
      | none => Except.error (DatasetDownloadError.keyNotFound k)
      | some entries =>
          if (keyErrors dl entries).isEmpty then Except.ok (keyLocalFiles dl entries)
          else downloadLoop d dl rest (acc ++ [(k, keyErrors dl entries)])

/-- Embedding of `CMIP6Dataset.download`, parameterised by the per-replica
download oracle `dl` standing for `CMIP6Entry.download` on the ambient
filesystem and network. -/
def CMIP6Dataset.download {ε σ : Type} (d : CMIP6Dataset) (dl : CMIP6Entry → Except ε σ) :
    Except (DatasetDownloadError ε) (List σ) :=
  downloadLoop d dl d.entry_keys_set []

/-- Embedding of `overlapping_spans` from `cmip6py/commons/utils.py`. -/
def overlapping_spans (file_start_year file_stop_year exp_start_year exp_stop_year : Int) :
    Bool :=
  decide (file_start_year < exp_stop_year) && decide (file_stop_year ≥ exp_start_year)

/-- Every entry of the file carries a well-formed replica-class key.  Files
produced by `CMIP6File.__init__` satisfy this: its own sort raises on any
record with an out-of-vocabulary facet and drops unparseable stamps. -/
def CMIP6File.wf (f : CMIP6File) : Bool := f.entries.all (fun e => keyWF e.entry_key)

/-- Modelled from the spec: `CMIP6File._filter_running_nodes` is called by
`CMIP6Dataset._filter_running_nodes` (dataset.py line 105) but its definition
is not under src/.  Per the spec's node-filtering transform, Replicas on
currently-unreachable mirrors are dropped and a LogicalFile left with zero
Replicas becomes the explicit absent value. -/
def CMIP6File.filter_running_nodes (status : String → Bool) (f : CMIP6File) :
    Option CMIP6File :=
  let kept := f.entries.filter (fun e => status e.data_node)
  if kept.isEmpty then none else some { f with entries := kept }

/-- Result of a dataset-level filtering transform: an exception escaped
(`err`, possible only through re-constructing the dataset), the explicit
absent value `None`, or a new dataset. -/
inductive FilterOutcome where
  | err
  | noDataset
  | ds (d : CMIP6Dataset)
deriving DecidableEq, Repr

/-- Embedding of `CMIP6Dataset._filter_running_nodes`: filter every file,
drop the files that came back empty, return the absent value when no file
survives, and otherwise rebuild a dataset from the survivors. -/
def CMIP6Dataset.filter_running_nodes (d : CMIP6Dataset) (status : String → Bool) :
    FilterOutcome :=
  let filtered := d.files.filterMap (CMIP6File.filter_running_nodes status)
  if filtered.isEmpty then FilterOutcome.noDataset
  else
    match mkDataset filtered with
    | none => FilterOutcome.err
    | some nd => FilterOutcome.ds nd

/-- Embedding of `CMIP6Dataset._filter_years`: keep the files whose year span
overlaps the requested span, return the absent value when none does, and
otherwise rebuild a dataset from the kept files. -/
def CMIP6Dataset.filter_years (d : CMIP6Dataset) (start_year stop_year : Int) :
    FilterOutcome :=
  let filtered := d.files.filter
    (fun f => overlapping_spans f.start_year f.end_year start_year stop_year)
  if filtered.isEmpty then FilterOutcome.noDataset
  else
    match mkDataset filtered with
    | none => FilterOutcome.err
    | some nd => FilterOutcome.ds nd

/-- Local destination path of an entry, `CMIP6Entry._local_file`: the
destination root joined with the facet-derived relative directory
(`_get_relative_path` over RELATIVE_PATH_FACETS, abstracted into the single
`facetDir` component since every claim treats it as an opaque deterministic
function of the entry's facets) and the entry name with the `.nc` suffix. -/
def CMIP6Entry.localFile (e : CMIP6Entry) (dest_folder : String) : String :=
  dest_folder ++ "/" ++ e.table_id ++ "/" ++ e.version ++ "/" ++ e.name ++ ".nc"

/-- Ambient filesystem and network state a single `CMIP6Entry.download` call
observes: whether a file already sits at the computed local path, whether
`xr.open_dataset` accepts it, the outcome of the HTTP request (an error
message, or the streamed payload chunks), and the digest function
`hashlib.new(algo)` + `hexdigest` computes over the streamed chunks. -/
structure DownloadEnv where
  localExists : Bool
  localValid : Bool
  response : Except String (List String)
  hash : String → List String → String

/-- The distinct failure classes `CMIP6Entry.download` can raise: the
`OSError` re-raised when a pre-existing local file fails the validity
predicate, an error from the network request (`requests` exception or
`raise_for_status`), and the checksum-mismatch `DownloadError`. -/
inductive EntryDownloadError where
  | invalidLocal (path : String)
  | network (msg : String)
  | checksumMismatch (algo expected got : String)
deriving DecidableEq, Repr

/-- Observable outcome of one `CMIP6Entry.download` call: the returned path
or raised error, whether a file sits at the final local path afterwards, and
whether a network transfer was performed. -/
structure EntryDownloadOutcome where
  result : Except EntryDownloadError String
  finalFilePresent : Bool
  transferred : Bool
deriving Repr

/-- Embedding of `CMIP6Entry.download`: an existing local file passing the
validity predicate short-circuits without any transfer; an existing invalid
file re-raises the validity error; otherwise the payload is streamed to a
temporary path, the digest is checked when a checksum algorithm is
advertised (a mismatch raises before the move, leaving nothing at the final
path), and only then is the temporary file moved to the final path. -/
def CMIP6Entry.download (e : CMIP6Entry) (dest_folder : String) (env : DownloadEnv) :
    EntryDownloadOutcome :=
  let local_file := e.localFile dest_folder
  if env.localExists then
    if env.localValid then
      { result := Except.ok local_file, finalFilePresent := true, transferred := false }
    else
      { result := Except.error (EntryDownloadError.invalidLocal local_file),
        finalFilePresent := true, transferred := false }
  else
    match env.response with
    | Except.error msg =>
        { result := Except.error (EntryDownloadError.network msg),
          finalFilePresent := false, transferred := true }
    | Except.ok chunks =>
        match e.checksum_type with
        | none =>
            { result := Except.ok local_file, finalFilePresent := true, transferred := true }
        | some algo =>
            if env.hash algo chunks = e.checksum then
              { result := Except.ok local_file, finalFilePresent := true, transferred := true }
            else
              { result := Except.error
                  (EntryDownloadError.checksumMismatch algo e.checksum (env.hash algo chunks)),
                finalFilePresent := false, transferred := true }

/-- Filesystem state after a download call: a file sits at the local path
exactly when the outcome left one there; its validity is unchanged when no
write happened. -/
def DownloadEnv.after (env : DownloadEnv) (o : EntryDownloadOutcome) : DownloadEnv :=
  { env with localExists := o.finalFilePresent }

/-- Composite priority key of an already-converted entry, spelled with the
same three components as the file-level `get_sort_key` closure; used to state
ordering properties of the final entry sequence. -/
def entrySortKey (versions : List String) (e : CMIP6Entry) : Nat × Nat × Nat :=
  (tableIdPriority.indexOf e.table_id, versions.indexOf e.version,
   gridLabelPriority.indexOf e.grid_label)

/-! ### Concrete fixtures used by the evaluation theorems -/

/-- Entry fixture: a single replica on mirror n1 with key (day, v20200101, gn). -/
def entryDisjA : CMIP6Entry :=
  { name := "a_day_x", data_node := "n1", table_id := "day",
    version := "v20200101", grid_label := "gn", url := "uA", size := 1,
    checksum_type := none, checksum := "" }

/-- Entry fixture with key (day, v20200102, gn). -/
def entryDisjB : CMIP6Entry :=
  { entryDisjA with name := "b_day_x", version := "v20200102", url := "uB" }

/-- Entry fixture with key (day, v20200103, gn). -/
def entryDisjC : CMIP6Entry :=
  { entryDisjA with name := "c_day_x", version := "v20200103", url := "uC" }

/-- File fixture whose only replica-class key is (day, v20200101, gn). -/
def fileDisjA : CMIP6File := { entries := [entryDisjA], start_year := 1850, end_year := 1900 }

/-- File fixture whose only replica-class key is (day, v20200102, gn). -/
def fileDisjB : CMIP6File := { entries := [entryDisjB], start_year := 1850, end_year := 1900 }

/-- File fixture whose only replica-class key is (day, v20200103, gn). -/
def fileDisjC : CMIP6File := { entries := [entryDisjC], start_year := 1850, end_year := 1900 }

/-- Entry fixture carrying the older version stamp v20000101. -/
def entryVerOld : CMIP6Entry := { entryDisjA with name := "d_old", version := "v20000101" }

/-- Entry fixture carrying the newer version stamp v20100101. -/
def entryVerNew : CMIP6Entry := { entryDisjA with name := "d_new", version := "v20100101" }

/-- File fixture offering the same table kind and grid on two version stamps. -/
def fileTwoVersions : CMIP6File :=
  { entries := [entryVerOld, entryVerNew], start_year := 0, end_year := 0 }

/-- Raw-record fixture: one scientific file on mirror nodeA. -/
def recMirrorA : RawRecord :=
  { name := "tos_day_m", data_node := "nodeA", table_id := "day",
    version := "v20200101", grid_label := "gn", url := "u1", size := 1,
    checksum_type := none, checksum := "" }

/-- The same scientific file advertised by mirror nodeB: identical
replica-class key, different mirror. -/
def recMirrorB : RawRecord := { recMirrorA with data_node := "nodeB", url := "u2" }

/-- Raw-record fixture with table kind day. -/
def recDay : RawRecord := recMirrorA

/-- Raw-record fixture with table kind Oday; its filename stem sorts before
the day record's stem in code-point order although its table-kind rank is
larger. -/
def recODay : RawRecord := { recMirrorA with name := "tos_Oday_m", table_id := "Oday" }

/-- Raw-record fixture for the full-tie scenario: identical to `recTieY` in
every sort-relevant field, differing only in the download url. -/
def recTieX : RawRecord := { recMirrorA with url := "uX" }

/-- Raw-record fixture differing from `recTieX` only in the download url. -/
def recTieY : RawRecord := { recMirrorA with url := "uY" }

/-- Entry fixture whose download is made to fail by `oracleDl`. -/
def entryDlFail : CMIP6Entry :=
  { entryDisjA with name := "dl_fail", version := "v20200101" }

/-- Entry fixture whose download succeeds under `oracleDl`. -/
def entryDlOk : CMIP6Entry :=
  { entryDisjA with name := "dl_ok", version := "v20200102", url := "uOK" }

/-- File fixture holding both download-oracle entries. -/
def fileDl : CMIP6File :=
  { entries := [entryDlFail, entryDlOk], start_year := 0, end_year := 0 }

/-- Dataset fixture with two candidate keys: the first leads to the failing
replica, the second to the succeeding one. -/
def datasetDl : CMIP6Dataset :=
  { files := [fileDl],
    entry_keys_set := [("day", "v20200101", "gn"), ("day", "v20200102", "gn")] }

/-- Download oracle: the replica named dl_fail is unreachable, every other
replica downloads to its url. -/
def oracleDl : CMIP6Entry → Except String String := fun e =>
  if e.name = "dl_fail" then Except.error "connection refused" else Except.ok e.url

/-- Entry fixture advertising a sha256 checksum. -/
def entryChk : CMIP6Entry :=
  { entryDisjA with name := "chk", checksum_type := some "sha256", checksum := "feed" }

/-- Environment fixture: no pre-existing local file, reachable network, and a
digest function returning 00ff, which differs from the declared digest. -/
def envChk : DownloadEnv :=
  { localExists := false, localValid := false,
    response := Except.ok ["chunk0", "chunk1"], hash := fun _ _ => "00ff" }

/-- Environment fixture: a valid file already sits at the local path. -/
def envValidLocal : DownloadEnv :=
  { localExists := true, localValid := true,
    response := Except.ok ["chunk0"], hash := fun _ _ => "00ff" }

/-- Environment fixture: an invalid file already sits at the local path. -/
def envInvalidLocal : DownloadEnv := { envValidLocal with localValid := false }

/-- Entry fixture living on the running mirror node-up. -/
def entryNodeUp : CMIP6Entry := { entryDisjA with name := "up_e", data_node := "node-up" }

/-- Entry fixture living on the unreachable mirror node-down. -/
def entryNodeDown : CMIP6Entry :=
  { entryDisjA with name := "down_e", data_node := "node-down", version := "v20200109" }

/-- File fixture mixing a reachable and an unreachable mirror. -/
def fileMixedNodes : CMIP6File :=
  { entries := [entryNodeUp, entryNodeDown], start_year := 0, end_year := 0 }

/-- File fixture whose only replica lives on the unreachable mirror. -/
def fileDownOnly : CMIP6File :=
  { entries := [entryNodeDown], start_year := 0, end_year := 0 }

/-- Dataset fixture for the node-filtering witness. -/
def datasetNodes : CMIP6Dataset :=
  { files := [fileMixedNodes, fileDownOnly],
    entry_keys_set := [("day", "v20200101", "gn")] }

/-- Liveness fixture: only node-up is reachable. -/
def statusUpOnly : String → Bool := fun n => decide (n = "node-up")

/-! ### Order-theoretic facts about the embedded comparisons -/

theorem lex3Le_trans {a b c : Nat × Nat × Nat} (h1 : lex3Le a b) (h2 : lex3Le b c) :
    lex3Le a c := by
  unfold lex3Le at h1 h2 ⊢
  omega

theorem lex3Le_total (a b : Nat × Nat × Nat) : lex3Le a b ∨ lex3Le b a := by
  unfold lex3Le
  omega

theorem lex3Le_antisymm {a b : Nat × Nat × Nat} (h1 : lex3Le a b) (h2 : lex3Le b a) :
    a = b := by
  obtain ⟨a1, a2, a3⟩ := a
  obtain ⟨b1, b2, b3⟩ := b
  unfold lex3Le at h1 h2
  simp only [Prod.mk.injEq]
  simp only at h1 h2
  omega

theorem charListLt_irrefl : ∀ l : List Char, charListLt l l = false := by
  intro l
  induction l with
  | nil => rfl
  | cons a as ih =>
      unfold charListLt
      rw [if_neg (lt_irrefl a), if_neg (lt_irrefl a)]
      exact ih

theorem charListLt_trans :
    ∀ (x y z : List Char), charListLt x y = true → charListLt y z = true →
      charListLt x z = true := by
  intro x
  induction x with
  | nil =>
      intro y z h1 h2
      cases y with
      | nil => exact absurd h1 (by simp [charListLt])
      | cons b bs =>
          cases z with
          | nil => exact absurd h2 (by simp [charListLt])
          | cons c cs => rfl
  | cons a as ih =>
      intro y z h1 h2
      cases y with
      | nil => exact absurd h1 (by simp [charListLt])
      | cons b bs =>
          cases z with
          | nil => exact absurd h2 (by simp [charListLt])
          | cons c cs =>
              unfold charListLt at h1 h2 ⊢
              by_cases hab : a < b
              · rw [if_pos hab] at h1
                by_cases hbc : b < c
                · rw [if_pos (lt_trans hab hbc)]
                · by_cases hcb : c < b
                  · rw [if_neg hbc, if_pos hcb] at h2
                    exact absurd h2 (by simp)
                  · have hbceq : b = c := le_antisymm (not_lt.mp hcb) (not_lt.mp hbc)
                    rw [if_pos (hbceq ▸ hab)]
              · by_cases hba : b < a
                · rw [if_neg hab, if_pos hba] at h1
                  exact absurd h1 (by simp)
                · have habeq : a = b := le_antisymm (not_lt.mp hba) (not_lt.mp hab)
                  rw [if_neg hab, if_neg hba] at h1
                  by_cases hbc : b < c
                  · rw [if_pos (show a < c from habeq.symm ▸ hbc)]
                  · by_cases hcb : c < b
                    · rw [if_neg hbc, if_pos hcb] at h2
                      exact absurd h2 (by simp)
                    · have hace : a = c :=
                        habeq.trans (le_antisymm (not_lt.mp hcb) (not_lt.mp hbc))
                      rw [if_neg hbc, if_neg hcb] at h2
                      have hnac : ¬ a < c := by
                        rw [hace]
                        exact lt_irrefl c
                      have hnca : ¬ c < a := by
                        rw [hace]
                        exact lt_irrefl c
                      rw [if_neg hnac, if_neg hnca]
                      exact ih bs cs h1 h2

theorem charListLt_asymm {x y : List Char} (h1 : charListLt x y = true)
    (h2 : charListLt y x = true) : False := by
  have := charListLt_trans x y x h1 h2
  rw [charListLt_irrefl x] at this
  exact Bool.false_ne_true this

theorem charListLt_eq_of_not :
    ∀ (x y : List Char), charListLt x y = false → charListLt y x = false → x = y := by
  intro x
  induction x with
  | nil =>
      intro y h1 _
      cases y with
      | nil => rfl
      | cons b bs => exact absurd h1 (by simp [charListLt])
  | cons a as ih =>
      intro y h1 h2
      cases y with
      | nil => exact absurd h2 (by simp [charListLt])
      | cons b bs =>
          unfold charListLt at h1 h2
          by_cases hab : a < b
          · rw [if_pos hab] at h1
            exact absurd h1 (by simp)
          · by_cases hba : b < a
            · rw [if_pos hba] at h2
              exact absurd h2 (by simp)
            · have habeq : a = b := le_antisymm (not_lt.mp hba) (not_lt.mp hab)
              rw [if_neg hab, if_neg hba] at h1
              rw [if_neg hba, if_neg hab] at h2
              rw [habeq, ih bs h1 h2]

theorem stringDataInj {a b : String} (h : a.data = b.data) : a = b := by
  cases a with
  | mk d1 =>
      cases b with
      | mk d2 => exact congrArg String.mk h

theorem strLe_antisymm {a b : String} (h1 : strLe a b) (h2 : strLe b a) : a = b :=
  stringDataInj (charListLt_eq_of_not a.data b.data h2 h1)

theorem strLe_total (a b : String) : strLe a b ∨ strLe b a := by
  unfold strLe
  by_cases h : charListLt b.data a.data = true
  · refine Or.inr ?_
    by_cases h2 : charListLt a.data b.data = true
    · exact absurd h (fun hh => charListLt_asymm h2 hh)
    · exact Bool.not_eq_true _ ▸ Bool.of_not_eq_true h2
  · exact Or.inl (Bool.of_not_eq_true h)

theorem strLe_trans {a b c : String} (h1 : strLe a b) (h2 : strLe b c) : strLe a c := by
  unfold strLe at h1 h2 ⊢
  by_cases hca : charListLt c.data a.data = true
  · by_cases hab : charListLt a.data b.data = true
    · have := charListLt_trans c.data a.data b.data hca hab
      rw [h2] at this
      exact absurd this Bool.false_ne_true
    · have habeq : a.data = b.data :=
        charListLt_eq_of_not a.data b.data (Bool.of_not_eq_true hab) h1
      rw [habeq] at hca
      rw [h2] at hca
      exact absurd hca Bool.false_ne_true
  · exact Bool.of_not_eq_true hca

theorem strLt_trichotomy (a b : String) : strLt a b ∨ strLt b a ∨ a = b := by
  unfold strLt
  by_cases h1 : charListLt a.data b.data = true
  · exact Or.inl h1
  · by_cases h2 : charListLt b.data a.data = true
    · exact Or.inr (Or.inl h2)
    · exact Or.inr (Or.inr (stringDataInj
        (charListLt_eq_of_not a.data b.data (Bool.of_not_eq_true h1)
          (Bool.of_not_eq_true h2))))

theorem strLt_asymm {a b : String} (h1 : strLt a b) (h2 : strLt b a) : False :=
  charListLt_asymm h1 h2

theorem strLt_irrefl (a : String) : ¬ strLt a a := fun h => charListLt_asymm h h

theorem pairLe_trans {a b c : String × String} (h1 : pairLe a b) (h2 : pairLe b c) :
    pairLe a c := by
  unfold pairLe at h1 h2 ⊢
  rcases h1 with h1 | ⟨h1e, h1le⟩ <;> rcases h2 with h2 | ⟨h2e, h2le⟩
  · exact Or.inl (charListLt_trans _ _ _ h1 h2)
  · exact Or.inl (h2e ▸ h1)
  · exact Or.inl (h1e ▸ h2)
  · exact Or.inr ⟨h1e.trans h2e, strLe_trans h1le h2le⟩

theorem pairLe_total (a b : String × String) : pairLe a b ∨ pairLe b a := by
  unfold pairLe
  rcases strLt_trichotomy a.1 b.1 with h | h | h
  · exact Or.inl (Or.inl h)
  · exact Or.inr (Or.inl h)
  · rcases strLe_total a.2 b.2 with h2 | h2
    · exact Or.inl (Or.inr ⟨h, h2⟩)
    · exact Or.inr (Or.inr ⟨h.symm, h2⟩)

theorem pairLe_antisymm {a b : String × String} (h1 : pairLe a b) (h2 : pairLe b a) :
    a = b := by
  unfold pairLe at h1 h2
  rcases h1 with h1 | ⟨h1e, h1le⟩ <;> rcases h2 with h2 | ⟨h2e, h2le⟩
  · exact (strLt_asymm h1 h2).elim
  · exact absurd (h2e ▸ h1) (strLt_irrefl b.1)
  · exact absurd (h1e ▸ h2) (strLt_irrefl b.1)
  · exact Prod.ext h1e (strLe_antisymm h1le h2le)

theorem strGe_trans {a b c : String} (h1 : strGe a b) (h2 : strGe b c) : strGe a c :=
  strLe_trans h2 h1

theorem strGe_total (a b : String) : strGe a b ∨ strGe b a := strLe_total b a

theorem strGe_antisymm {a b : String} (h1 : strGe a b) (h2 : strGe b a) : a = b :=
  strLe_antisymm h2 h1

instance : IsTrans (Nat × Nat × Nat) lex3Le := ⟨fun _ _ _ => lex3Le_trans⟩

instance : IsTotal (Nat × Nat × Nat) lex3Le := ⟨lex3Le_total⟩

instance : IsTrans (String × String) pairLe := ⟨fun _ _ _ => pairLe_trans⟩

instance : IsTotal (String × String) pairLe := ⟨pairLe_total⟩

instance : IsTrans String strGe := ⟨fun _ _ _ => strGe_trans⟩

instance : IsTotal String strGe := ⟨strGe_total⟩

instance (versions : List String) : IsTrans RawRecord (resultOrder versions) :=
  ⟨fun _ _ _ => lex3Le_trans⟩

instance (versions : List String) : IsTotal RawRecord (resultOrder versions) :=
  ⟨fun _ _ => lex3Le_total _ _⟩

instance : IsTrans CMIP6Entry entryIdOrder := ⟨fun _ _ _ => pairLe_trans⟩

instance : IsTotal CMIP6Entry entryIdOrder := ⟨fun _ _ => pairLe_total _ _⟩

instance (versions : List Nat) : IsTrans EntryKey (entryKeyOrder versions) :=
  ⟨fun _ _ _ => lex3Le_trans⟩

instance (versions : List Nat) : IsTotal EntryKey (entryKeyOrder versions) :=
  ⟨fun _ _ => lex3Le_total _ _⟩

/-! ### Facts about `dedupRuns` -/

theorem dedupRunsAux_sublist {α β : Type} [DecidableEq β] (k : α → β) :
    ∀ (cur : β) (l : List α), List.Sublist (dedupRunsAux k cur l) l := by
  intro cur l
  induction l generalizing cur with
  | nil => exact List.Sublist.refl []
  | cons b rest ih =>
      unfold dedupRunsAux
      by_cases hb : k b = cur
      · simp only [hb, if_true]
        exact (ih cur).cons b
      · simp only [hb, if_false]
        exact (ih (k b)).cons₂ b

theorem dedupRuns_sublist {α β : Type} [DecidableEq β] (k : α → β) (l : List α) :
    List.Sublist (dedupRuns k l) l := by
  cases l with
  | nil => exact List.Sublist.refl []
  | cons a rest => exact (dedupRunsAux_sublist k (k a) rest).cons₂ a

theorem dedupRunsAux_ne {α β : Type} [DecidableEq β] {k : α → β} {kle : β → β → Prop}
    (antisym : ∀ x y, kle x y → kle y x → x = y) :
    ∀ (cur : β) (l : List α), l.Pairwise (fun a b => kle (k a) (k b)) →
      (∀ x ∈ l, kle cur (k x)) → ∀ b ∈ dedupRunsAux k cur l, k b ≠ cur := by
  intro cur l
  induction l generalizing cur with
  | nil => intro _ _ b hb; simp [dedupRunsAux] at hb
  | cons b rest ih =>
      intro hs hmin c hc
      rw [List.pairwise_cons] at hs
      unfold dedupRunsAux at hc
      by_cases hb : k b = cur
      · simp only [hb, if_true] at hc
        exact ih cur hs.2 (fun x hx => hmin x (List.mem_cons_of_mem b hx)) c hc
      · simp only [hb, if_false, List.mem_cons] at hc
        rcases hc with rfl | hc
        · exact hb
        · have hcrest : c ∈ rest := (dedupRunsAux_sublist k (k b) rest).subset hc
          intro hceq
          have h1 : kle (k b) cur := hceq ▸ hs.1 c hcrest
          have h2 : kle cur (k b) := hmin b (List.mem_cons_self b rest)
          exact hb (antisym _ _ h1 h2)

theorem dedupRunsAux_pairwise_ne {α β : Type} [DecidableEq β] {k : α → β}
    {kle : β → β → Prop} (antisym : ∀ x y, kle x y → kle y x → x = y) :
    ∀ (cur : β) (l : List α), l.Pairwise (fun a b => kle (k a) (k b)) →
      (dedupRunsAux k cur l).Pairwise (fun a b => k a ≠ k b) := by
  intro cur l
  induction l generalizing cur with
  | nil => intro _; exact List.Pairwise.nil
  | cons b rest ih =>
      intro hs
      rw [List.pairwise_cons] at hs
      unfold dedupRunsAux
      by_cases hb : k b = cur
      · simp only [hb, if_true]
        exact ih cur hs.2
      · simp only [hb, if_false]
        refine List.Pairwise.cons ?_ (ih (k b) hs.2)
        intro c hc
        exact fun h => (dedupRunsAux_ne antisym (k b) rest hs.2 hs.1 c hc) h.symm

theorem dedupRuns_pairwise_ne {α β : Type} [DecidableEq β] {k : α → β}
    {kle : β → β → Prop} (antisym : ∀ x y, kle x y → kle y x → x = y)
    (l : List α) (hs : l.Pairwise (fun a b => kle (k a) (k b))) :
    (dedupRuns k l).Pairwise (fun a b => k a ≠ k b) := by
  cases l with
  | nil => exact List.Pairwise.nil
  | cons a rest =>
      rw [List.pairwise_cons] at hs
      refine List.Pairwise.cons ?_ (dedupRunsAux_pairwise_ne antisym (k a) rest hs.2)
      intro c hc
      exact fun h => (dedupRunsAux_ne antisym (k a) rest hs.2 hs.1 c hc) h.symm

/-! ### Sorted permutations have equal images under class-respecting maps

Python's stable sort is deterministic up to the equivalence induced by the
comparison: any two sorted permutations of the same multiset list the
comparison-equivalence classes in the same positions.  The two lemmas below
capture this: mapping a function that is constant on each equivalence class
over two sorted permutations of the same list yields identical results. -/

theorem minHeadMapEq {α β : Type} [DecidableEq α] {le : α → α → Prop} {f : α → β} :
    ∀ (t : List α) (h1 : α), t.Pairwise le → h1 ∈ t → (∀ x ∈ t, le h1 x) →
      (∀ a ∈ t, ∀ b ∈ t, le a b → le b a → f a = f b) →
      f h1 :: (t.erase h1).map f = t.map f := by
  intro t
  induction t with
  | nil => intro h1 _ hmem; exact absurd hmem (List.not_mem_nil h1)
  | cons b r ih =>
      intro h1 hs hmem hmin hresp
      rw [List.pairwise_cons] at hs
      by_cases hb : h1 = b
      · subst hb
        rw [List.erase_cons_head, List.map_cons]
      · have hr : h1 ∈ r := by
          rcases List.mem_cons.mp hmem with h | h
          · exact absurd h hb
          · exact h
        have hfb : f h1 = f b :=
          hresp h1 hmem b (List.mem_cons_self b r)
            (hmin b (List.mem_cons_self b r)) (hs.1 h1 hr)
        have herase : (b :: r).erase h1 = b :: r.erase h1 := by
          rw [List.erase_cons_tail]
          simp only [beq_iff_eq]
          exact fun h => hb h.symm
        have hrec : f h1 :: (r.erase h1).map f = r.map f :=
          ih h1 hs.2 hr (fun x hx => hmin x (List.mem_cons_of_mem b hx))
            (fun x hx y hy hxy hyx =>
              hresp x (List.mem_cons_of_mem b hx) y (List.mem_cons_of_mem b hy) hxy hyx)
        rw [herase, List.map_cons, List.map_cons, ← hrec, hfb]

theorem sortedPermMapEq {α β : Type} [DecidableEq α] (le : α → α → Prop) (f : α → β)
    (total : ∀ a b, le a b ∨ le b a) :
    ∀ (l1 l2 : List α), l1.Perm l2 → l1.Pairwise le → l2.Pairwise le →
      (∀ a ∈ l1, ∀ b ∈ l1, le a b → le b a → f a = f b) →
      l1.map f = l2.map f := by
  intro l1
  induction l1 with
  | nil =>
      intro l2 hperm _ _ _
      rw [hperm.nil_eq]
  | cons h1 t1 ih =>
      intro l2 hperm hs1 hs2 hresp
      rw [List.pairwise_cons] at hs1
      have hh1 : h1 ∈ l2 := hperm.subset (List.mem_cons_self h1 t1)
      have hperm' : t1.Perm (l2.erase h1) :=
        (hperm.trans (List.perm_cons_erase hh1)).cons_inv
      have hs2' : (l2.erase h1).Pairwise le := hs2.sublist (l2.erase_sublist h1)
      have hmapt : t1.map f = (l2.erase h1).map f :=
        ih (l2.erase h1) hperm' hs1.2 hs2'
          (fun a ha b hb hab hba =>
            hresp a (List.mem_cons_of_mem h1 ha) b (List.mem_cons_of_mem h1 hb) hab hba)
      have hmin : ∀ x ∈ l2, le h1 x := by
        intro x hx
        rcases List.mem_cons.mp (hperm.symm.subset hx) with h | h
        · subst h
          rcases total x x with h | h <;> exact h
        · exact hs1.1 x h
      have hrespl2 : ∀ a ∈ l2, ∀ b ∈ l2, le a b → le b a → f a = f b := by
        intro a ha b hb hab hba
        exact hresp a (hperm.symm.subset ha) b (hperm.symm.subset hb) hab hba
      have hhead : f h1 :: (l2.erase h1).map f = l2.map f :=
        minHeadMapEq l2 h1 hs2 hh1 hmin hrespl2
      rw [List.map_cons, hmapt, hhead]

/-! ### Claim theorems -/

/-- C9: the temporal-filter overlap predicate keeps a file exactly when the
file's start year is strictly below the span's upper bound and the file's end
year is at least the span's lower bound; in particular a file ending exactly
at the span's start is kept and a file starting exactly at the span's end is
dropped. -/
theorem overlapping_spans_characterization :
    (∀ fileStart fileEnd spanStart spanEnd : Int,
      overlapping_spans fileStart fileEnd spanStart spanEnd = true ↔
        (fileStart < spanEnd ∧ fileEnd ≥ spanStart)) ∧
    overlapping_spans 1850 1900 1900 1950 = true ∧
    overlapping_spans 1900 1950 1850 1900 = false := by
  refine ⟨?_, by decide, by decide⟩
  intro a b c d
  unfold overlapping_spans
  simp only [Bool.and_eq_true, decide_eq_true_eq]

/-- C1: the claim that the common replica-class-key set equals the exact
intersection of the files' key sets — and that an empty running intersection
stays empty — fails on the code: with three pairwise disjoint files the
running intersection empties after the second file and is then reset to the
third file's key set, so the computed common set holds a key the first file
lacks. -/
theorem intersection_reset_eval :
    (mkDataset [fileDisjA, fileDisjB, fileDisjC]).map (fun d => d.entry_keys_set)
        = some [("day", "v20200103", "gn")] ∧
    ("day", "v20200103", "gn") ∉ fileDisjA.entry_keys ∧
    ("day", "v20200103", "gn") ∈ fileDisjC.entry_keys :=
  ⟨by rfl, by decide, by decide⟩

/-- C8: the claim that among keys of equal table-kind rank a more recent
version stamp precedes an older one fails on the code: the dataset-level sort
ranks versions by position in an ascending `sorted(...)` call (the
`reverse=True` of the file-level sibling is missing), so the older stamp
v20000101 precedes the newer v20100101 in the sorted common-key set. -/
theorem dataset_sort_oldest_first_eval :
    (mkDataset [fileTwoVersions]).map (fun d => d.entry_keys_set) =
      some [("day", "v20000101", "gn"), ("day", "v20100101", "gn")] ∧
    versionValue "v20000101" < versionValue "v20100101" :=
  ⟨by rfl, by decide⟩

/-- C10: with an empty true intersection, construction indeed succeeds, but
when the reset bug leaves the computed common-key set non-empty the
subsequent download raises the key-lookup error escaping `sample_entry_key`
rather than the aggregate download error — even under an oracle for which
every individual replica download succeeds. -/
theorem download_key_error_eval :
    (mkDataset [fileDisjA, fileDisjB, fileDisjC]).isSome = true ∧
    fileDisjA.entry_keys.filter
        (fun k => decide (k ∈ fileDisjB.entry_keys) && decide (k ∈ fileDisjC.entry_keys)) = [] ∧
    (mkDataset [fileDisjA, fileDisjB, fileDisjC]).map
        (fun d => d.download (fun e => (Except.ok e.url : Except String String))) =
      some (Except.error (DatasetDownloadError.keyNotFound ("day", "v20200103", "gn"))) :=
  ⟨by rfl, by rfl, by rfl⟩

/-- C2 counterexample: grouping the same scientific file advertised by two
different mirrors under the same replica-class key keeps both replicas, so
the deduplicated sequence contains two entries sharing one key. -/
theorem dedup_same_key_two_mirrors_eval :
    ¬ ((convertToSortedEntries [recMirrorA, recMirrorB]).getD []).Pairwise
        (fun a b => a.entry_key ≠ b.entry_key) := by
  decide

/-- C2 (amended): after deduplication no two entries of a constructed file
share the `(name, data_node)` identity the dedup pass collapses on; entries
sharing a replica-class key survive when they live on different mirrors. -/
theorem dedup_unique_name_node (results : List RawRecord) (es : List CMIP6Entry)
    (h : convertToSortedEntries results = some es) :
    es.Pairwise (fun a b => a.dedupKey ≠ b.dedupKey) := by
  unfold convertToSortedEntries at h
  by_cases hv : (results.filter recordValid).all recordVocabOk
  · simp only [hv, if_true] at h
    have hes := Option.some.inj h
    subst hes
    apply dedupRuns_pairwise_ne (fun x y hxy hyx => pairLe_antisymm hxy hyx)
    exact List.sorted_insertionSort entryIdOrder _
  · simp only [hv, if_false] at h
    exact Option.noConfusion h

/-- C2 witness: the amended theorem applied to the two-mirror fixture. -/
theorem dedup_unique_name_node_witness :
    convertToSortedEntries [recMirrorA, recMirrorB] =
      some [CMIP6Entry.ofResult recMirrorA, CMIP6Entry.ofResult recMirrorB] ∧
    List.Pairwise (fun a b => a.dedupKey ≠ b.dedupKey)
      [CMIP6Entry.ofResult recMirrorA, CMIP6Entry.ofResult recMirrorB] :=
  ⟨by rfl, dedup_unique_name_node [recMirrorA, recMirrorB] _ (by rfl)⟩

/-- C5: when a checksum algorithm is advertised, no file pre-exists locally
and the digest computed over the streamed payload differs from the declared
digest, download raises the checksum-mismatch error — a constructor distinct
from the network and local-validity errors — and leaves no file at the final
destination path. -/
theorem checksum_mismatch_spec (e : CMIP6Entry) (dest : String) (env : DownloadEnv)
    (algo : String) (chunks : List String)
    (halgo : e.checksum_type = some algo)
    (hnolocal : env.localExists = false)
    (hresp : env.response = Except.ok chunks)
    (hmismatch : env.hash algo chunks ≠ e.checksum) :
    (e.download dest env).result =
      Except.error (EntryDownloadError.checksumMismatch algo e.checksum (env.hash algo chunks)) ∧
    (e.download dest env).finalFilePresent = false ∧
    (∀ msg, (e.download dest env).result ≠ Except.error (EntryDownloadError.network msg)) ∧
    (∀ p, (e.download dest env).result ≠ Except.error (EntryDownloadError.invalidLocal p)) := by
  have hD : e.download dest env =
      { result := Except.error
          (EntryDownloadError.checksumMismatch algo e.checksum (env.hash algo chunks)),
        finalFilePresent := false, transferred := true } := by
    unfold CMIP6Entry.download
    rw [hnolocal, hresp, halgo]
    simp [hmismatch]
  rw [hD]
  refine ⟨rfl, rfl, fun msg h => ?_, fun p h => ?_⟩
  · exact EntryDownloadError.noConfusion (Except.error.inj h)
  · exact EntryDownloadError.noConfusion (Except.error.inj h)

/-- C5 witness: the checksum theorem applied to the mismatching fixture. -/
theorem checksum_mismatch_spec_witness :
    entryChk.checksum_type = some "sha256" ∧
    envChk.localExists = false ∧
    envChk.response = Except.ok ["chunk0", "chunk1"] ∧
    envChk.hash "sha256" ["chunk0", "chunk1"] ≠ entryChk.checksum ∧
    (entryChk.download "root" envChk).result =
      Except.error (EntryDownloadError.checksumMismatch "sha256" entryChk.checksum
        (envChk.hash "sha256" ["chunk0", "chunk1"])) ∧
    (entryChk.download "root" envChk).finalFilePresent = false :=
  ⟨rfl, rfl, rfl, by decide,
    (checksum_mismatch_spec entryChk "root" envChk "sha256" ["chunk0", "chunk1"]
      rfl rfl rfl (by decide)).1,
    (checksum_mismatch_spec entryChk "root" envChk "sha256" ["chunk0", "chunk1"]
      rfl rfl rfl (by decide)).2.1⟩

/-- C6: a pre-existing local file passing the validity predicate makes
download return its path with no transfer, and a second call on the resulting
filesystem state returns the same outcome; a pre-existing file failing the
predicate makes download raise the validity error without transferring and
with the existing file left in place. -/
theorem existing_local_file_spec (e : CMIP6Entry) (dest : String) (env : DownloadEnv)
    (hexists : env.localExists = true) :
    (env.localValid = true →
      e.download dest env =
        { result := Except.ok (e.localFile dest), finalFilePresent := true,
          transferred := false } ∧
      e.download dest (env.after (e.download dest env)) = e.download dest env) ∧
    (env.localValid = false →
      (e.download dest env).result =
        Except.error (EntryDownloadError.invalidLocal (e.localFile dest)) ∧
      (e.download dest env).transferred = false ∧
      (e.download dest env).finalFilePresent = true) := by
  constructor
  · intro hvalid
    constructor
    · unfold CMIP6Entry.download
      rw [hexists, hvalid]
      simp
    · unfold CMIP6Entry.download DownloadEnv.after
      rw [hexists, hvalid]
      simp
  · intro hvalid
    unfold CMIP6Entry.download
    rw [hexists, hvalid]
    simp

/-- When the first candidate keys all fail and key `k` is reached with a
clean error list, the loop returns the local files collected for `k`. -/
theorem downloadLoop_ok {ε σ : Type} (d : CMIP6Dataset) (dl : CMIP6Entry → Except ε σ) :
    ∀ (pre : List EntryKey) (k : EntryKey) (post : List EntryKey)
      (acc : List (EntryKey × List ε)),
      (∀ k2 ∈ pre, (d.sample_entry_key k2).isSome) →
      (d.sample_entry_key k).isSome →
      (∀ k2 ∈ pre, keyErrors dl ((d.sample_entry_key k2).getD []) ≠ []) →
      keyErrors dl ((d.sample_entry_key k).getD []) = [] →
      downloadLoop d dl (pre ++ k :: post) acc =
        Except.ok (keyLocalFiles dl ((d.sample_entry_key k).getD [])) := by
  intro pre
  induction pre with
  | nil =>
      intro k post acc _ hk _ herr
      obtain ⟨es, hes⟩ := Option.isSome_iff_exists.mp hk
      rw [hes, Option.getD_some] at herr
      simp only [List.nil_append, downloadLoop, hes, herr, List.isEmpty_nil, if_true]
      rw [Option.getD_some]
  | cons k2 pre2 ih =>
      intro k post acc hpre hk hperr herr
      obtain ⟨es2, hes2⟩ := Option.isSome_iff_exists.mp
        (hpre k2 (List.mem_cons_self k2 pre2))
      have herr2 : keyErrors dl es2 ≠ [] := by
        have := hperr k2 (List.mem_cons_self k2 pre2)
        rwa [hes2, Option.getD_some] at this
      have hempty : (keyErrors dl es2).isEmpty = false := by
        cases hkeyerrs : keyErrors dl es2 with
        | nil => exact absurd hkeyerrs herr2
        | cons x xs => rfl
      simp only [List.cons_append, downloadLoop, hes2, hempty, Bool.false_eq_true, if_false]
      exact ih k post _ (fun x hx => hpre x (List.mem_cons_of_mem k2 hx)) hk
        (fun x hx => hperr x (List.mem_cons_of_mem k2 hx)) herr

/-- When every remaining candidate key collects at least one error, the loop
raises the aggregate error listing the accumulated and remaining keys with
their error lists. -/
theorem downloadLoop_exhaust {ε σ : Type} (d : CMIP6Dataset) (dl : CMIP6Entry → Except ε σ) :
    ∀ (keys : List EntryKey) (acc : List (EntryKey × List ε)),
      (∀ k ∈ keys, (d.sample_entry_key k).isSome) →
      (∀ k ∈ keys, keyErrors dl ((d.sample_entry_key k).getD []) ≠ []) →
      downloadLoop d dl keys acc =
        Except.error (DatasetDownloadError.exhausted
          (acc ++ keys.map (fun k => (k, keyErrors dl ((d.sample_entry_key k).getD []))))) := by
  intro keys
  induction keys with
  | nil =>
      intro acc _ _
      simp [downloadLoop]
  | cons k rest ih =>
      intro acc hsome herrs
      obtain ⟨es, hes⟩ := Option.isSome_iff_exists.mp (hsome k (List.mem_cons_self k rest))
      have herr : keyErrors dl es ≠ [] := by
        have := herrs k (List.mem_cons_self k rest)
        rwa [hes, Option.getD_some] at this
      have hempty : (keyErrors dl es).isEmpty = false := by
        cases hkeyerrs : keyErrors dl es with
        | nil => exact absurd hkeyerrs herr
        | cons x xs => rfl
      simp only [downloadLoop, hes, hempty, Bool.false_eq_true, if_false]
      rw [ih _ (fun x hx => hsome x (List.mem_cons_of_mem k hx))
        (fun x hx => herrs x (List.mem_cons_of_mem k hx))]
      simp only [List.map_cons, List.append_assoc, List.singleton_append, hes,
        Option.getD_some]

/-- C4: candidate keys are attempted strictly in the order of the common-key
set; the first key whose sampled replica combination collects zero errors
returns its local files (later keys untried), and if every key collects an
error the aggregate error reports each attempted key with its collected error
list; individual replica errors are caught, never propagated directly. -/
theorem download_priority_failover {ε σ : Type} (d : CMIP6Dataset)
    (dl : CMIP6Entry → Except ε σ)
    (hne : d.entry_keys_set ≠ [])
    (hkeys : ∀ k ∈ d.entry_keys_set, (d.sample_entry_key k).isSome) :
    (∀ (pre : List EntryKey) (k : EntryKey) (post : List EntryKey),
      d.entry_keys_set = pre ++ k :: post →
      (∀ k2 ∈ pre, keyErrors dl ((d.sample_entry_key k2).getD []) ≠ []) →
      keyErrors dl ((d.sample_entry_key k).getD []) = [] →
      d.download dl = Except.ok (keyLocalFiles dl ((d.sample_entry_key k).getD []))) ∧
    ((∀ k ∈ d.entry_keys_set, keyErrors dl ((d.sample_entry_key k).getD []) ≠ []) →
      d.download dl = Except.error (DatasetDownloadError.exhausted
        (d.entry_keys_set.map
          (fun k => (k, keyErrors dl ((d.sample_entry_key k).getD [])))))) := by
  constructor
  · intro pre k post hsplit hperr herr
    unfold CMIP6Dataset.download
    rw [hsplit]
    exact downloadLoop_ok d dl pre k post []
      (fun x hx => hkeys x (hsplit ▸ List.mem_append_left _ hx))
      (hkeys k (hsplit ▸ List.mem_append_right _ (List.mem_cons_self k post)))
      (fun x hx => hperr x hx) herr
  · intro herrs
    unfold CMIP6Dataset.download
    rw [downloadLoop_exhaust d dl d.entry_keys_set [] hkeys herrs]
    rw [List.nil_append]

/-- C4 witness: under the fixture oracle the first key's replica is
unreachable and the second key's replica downloads, so the dataset download
returns the second key's local files. -/
theorem download_priority_failover_witness :
    datasetDl.entry_keys_set ≠ [] ∧
    (∀ k ∈ datasetDl.entry_keys_set, (datasetDl.sample_entry_key k).isSome) ∧
    keyErrors oracleDl ((datasetDl.sample_entry_key ("day", "v20200101", "gn")).getD [])
      ≠ [] ∧
    datasetDl.download oracleDl = Except.ok ["uOK"] :=
  ⟨by decide, by decide, by decide, by
    rw [(download_priority_failover datasetDl oracleDl (by decide) (by decide)).1
      [("day", "v20200101", "gn")] ("day", "v20200102", "gn") [] rfl
      (by decide) (by rfl)]
    rfl⟩

/-- Keys of a well-formed file are well-formed. -/
theorem entry_keys_wf {f : CMIP6File} (hf : f.wf = true) :
    ∀ k ∈ f.entry_keys, keyWF k = true := by
  intro k hk
  unfold CMIP6File.entry_keys at hk
  obtain ⟨e, he, rfl⟩ := List.mem_map.mp hk
  exact List.all_eq_true.mp hf e he

/-- Every key the running intersection produces originates from a file's key
set, so well-formedness of the inputs is preserved. -/
theorem runningIntersection_wf :
    ∀ (files : List CMIP6File) (init : List EntryKey),
      (∀ k ∈ init, keyWF k = true) → (∀ f ∈ files, f.wf = true) →
      ∀ k ∈ runningIntersection init files, keyWF k = true := by
  intro files
  induction files with
  | nil =>
      intro init hinit _ k hk
      unfold runningIntersection at hk
      exact hinit k hk
  | cons f fs ih =>
      intro init hinit hfs k hk
      unfold runningIntersection at hk
      rw [List.foldl_cons] at hk
      refine ih _ ?_ (fun g hg => hfs g (List.mem_cons_of_mem f hg)) k hk
      intro k2 hk2
      by_cases hemp : init.isEmpty
      · rw [if_pos hemp] at hk2
        exact entry_keys_wf (hfs f (List.mem_cons_self f fs)) k2 (List.mem_dedup.mp hk2)
      · rw [if_neg hemp] at hk2
        exact hinit k2 (List.mem_of_mem_filter hk2)

/-- Sorting a list of well-formed keys raises no exception. -/
theorem sortEntryKeys_isSome {ks : List EntryKey} (h : ∀ k ∈ ks, keyWF k = true) :
    ∃ out, sortEntryKeys ks = some out := by
  unfold sortEntryKeys
  rw [if_pos (List.all_eq_true.mpr h)]
  exact ⟨_, rfl⟩

/-- Constructing a dataset from a non-empty list of well-formed files
succeeds and stores exactly those files. -/
theorem mkDataset_files {files : List CMIP6File}
    (hne : files ≠ []) (hwf : ∀ f ∈ files, f.wf = true) :
    ∃ nd, mkDataset files = some nd ∧ nd.files = files := by
  cases files with
  | nil => exact absurd rfl hne
  | cons f0 fs =>
      have hinit : ∀ k ∈ f0.entry_keys.dedup, keyWF k = true := fun k hk =>
        entry_keys_wf (hwf f0 (List.mem_cons_self f0 fs)) k (List.mem_dedup.mp hk)
      obtain ⟨out, hout⟩ := sortEntryKeys_isSome
        (runningIntersection_wf (f0 :: fs) f0.entry_keys.dedup hinit hwf)
      refine ⟨{ files := f0 :: fs, entry_keys_set := out }, ?_, rfl⟩
      have hmk : mkDataset (f0 :: fs) =
          Option.map (fun ks => ({ files := f0 :: fs, entry_keys_set := ks } : CMIP6Dataset))
            (sortEntryKeys (runningIntersection f0.entry_keys.dedup (f0 :: fs))) := rfl
      rw [hmk, hout]
      rfl

/-- Node filtering keeps a subset of a file's entries, so well-formedness is
preserved. -/
theorem fileFilter_wf {status : String → Bool} {f f2 : CMIP6File} (hf : f.wf = true)
    (h : CMIP6File.filter_running_nodes status f = some f2) : f2.wf = true := by
  unfold CMIP6File.filter_running_nodes at h
  by_cases hemp : (f.entries.filter (fun e => status e.data_node)).isEmpty
  · rw [if_pos hemp] at h
    exact Option.noConfusion h
  · rw [if_neg hemp] at h
    have h2 := Option.some.inj h
    subst h2
    refine List.all_eq_true.mpr ?_
    intro e he
    exact List.all_eq_true.mp hf e (List.mem_of_mem_filter he)

/-- C7: on a dataset of well-formed files node filtering never raises: it
returns the explicit absent value exactly when every file loses all its
replicas, and otherwise a new dataset holding precisely the refiltered files,
where each surviving file is non-empty and keeps exactly replicas on running
mirrors; the original dataset value is left untouched. -/
theorem filter_running_nodes_spec (d : CMIP6Dataset) (status : String → Bool)
    (hwf : ∀ f ∈ d.files, f.wf = true) :
    d.filter_running_nodes status ≠ FilterOutcome.err ∧
    (d.filter_running_nodes status = FilterOutcome.noDataset ↔
      ∀ f ∈ d.files, f.entries.filter (fun e => status e.data_node) = []) ∧
    (∀ nd, d.filter_running_nodes status = FilterOutcome.ds nd →
      nd.files = d.files.filterMap (CMIP6File.filter_running_nodes status) ∧
      ∀ f2 ∈ nd.files, f2.entries ≠ [] ∧ ∀ e ∈ f2.entries, status e.data_node = true) := by
  have hfileNone : ∀ f : CMIP6File,
      (CMIP6File.filter_running_nodes status f = none ↔
        f.entries.filter (fun e => status e.data_node) = []) := by
    intro f
    unfold CMIP6File.filter_running_nodes
    by_cases hemp : (f.entries.filter (fun e => status e.data_node)).isEmpty
    · rw [if_pos hemp]
      simp only [true_iff]
      exact List.isEmpty_iff.mp hemp
    · rw [if_neg hemp]
      constructor
      · intro h
        exact Option.noConfusion h
      · intro h
        exact absurd (List.isEmpty_iff.mpr h) hemp
  unfold CMIP6Dataset.filter_running_nodes
  by_cases hemp : (d.files.filterMap (CMIP6File.filter_running_nodes status)).isEmpty
  · rw [if_pos hemp]
    refine ⟨fun h => FilterOutcome.noConfusion h, ?_, fun nd h => FilterOutcome.noConfusion h⟩
    simp only [true_iff]
    intro f hf
    have hnil := List.isEmpty_iff.mp hemp
    have := List.filterMap_eq_nil_iff.mp hnil f hf
    exact (hfileNone f).mp this
  · rw [if_neg hemp]
    have hne : d.files.filterMap (CMIP6File.filter_running_nodes status) ≠ [] := by
      intro h
      exact hemp (List.isEmpty_iff.mpr h)
    have hwf2 : ∀ f2 ∈ d.files.filterMap (CMIP6File.filter_running_nodes status),
        f2.wf = true := by
      intro f2 hf2
      obtain ⟨f, hf, hsome⟩ := List.mem_filterMap.mp hf2
      exact fileFilter_wf (hwf f hf) hsome
    obtain ⟨nd, hnd, hndfiles⟩ := mkDataset_files hne hwf2
    rw [hnd]
    refine ⟨fun h => FilterOutcome.noConfusion h, ?_, ?_⟩
    · constructor
      · intro h
        exact absurd h (fun hh => FilterOutcome.noConfusion hh)
      · intro hall
        refine absurd (List.filterMap_eq_nil_iff.mpr ?_) hne
        intro f hf
        exact (hfileNone f).mpr (hall f hf)
    · intro nd2 h
      have hnd2 : nd = nd2 := FilterOutcome.ds.inj h
      subst hnd2
      refine ⟨hndfiles, ?_⟩
      intro f2 hf2
      rw [hndfiles] at hf2
      obtain ⟨f, hf, hsome⟩ := List.mem_filterMap.mp hf2
      unfold CMIP6File.filter_running_nodes at hsome
      by_cases hke : (f.entries.filter (fun e => status e.data_node)).isEmpty
      · rw [if_pos hke] at hsome
        exact Option.noConfusion hsome
      · rw [if_neg hke] at hsome
        have h2 := Option.some.inj hsome
        subst h2
        refine ⟨fun h0 => hke (List.isEmpty_iff.mpr h0), ?_⟩
        intro e he
        have he2 : e ∈ f.entries.filter (fun e => status e.data_node) := he
        exact (List.mem_filter.mp he2).2

/-- C7 witness: the node-filtering theorem applied to the two-file fixture,
where one file survives on the running mirror and the other is dropped. -/
theorem filter_running_nodes_spec_witness :
    (∀ f ∈ datasetNodes.files, f.wf = true) ∧
    datasetNodes.filter_running_nodes statusUpOnly ≠ FilterOutcome.err :=
  ⟨by decide, (filter_running_nodes_spec datasetNodes statusUpOnly (by decide)).1⟩

/-- Permuting a list leaves `List.all` unchanged. -/
theorem permAllEq {α : Type} (p : α → Bool) {l1 l2 : List α} (h : l1.Perm l2) :
    l1.all p = l2.all p := by
  induction h with
  | nil => rfl
  | cons x _ ih => simp only [List.all_cons, ih]
  | swap x y l =>
      simp only [List.all_cons, ← Bool.and_assoc]
      rw [Bool.and_comm (p y) (p x)]
  | trans _ _ ih1 ih2 => exact ih1.trans ih2

/-- C3 counterexample: the final replica sequence of the day/Oday group is
not ordered by the composite priority key (the Oday replica, of larger
table-kind rank, sorts first because its filename stem is smaller in
code-point order), and rebuilding from a transposed pair of records that tie
on every sort key yet differ in their payload yields a different sequence. -/
theorem convert_not_composite_ordered_eval :
    ¬ ((convertToSortedEntries [recDay, recODay]).getD []).Pairwise
        (fun a b => lex3Le (entrySortKey (fileVersions [recDay, recODay]) a)
          (entrySortKey (fileVersions [recDay, recODay]) b)) ∧
    convertToSortedEntries [recTieX, recTieY] ≠ convertToSortedEntries [recTieY, recTieX] :=
  ⟨by decide, by decide⟩

/-- C3 (amended): the final replica sequence is ordered by the `(name,
data_node)` pair the dedup pass collapses on, with the composite priority
sort deciding which record of each pair survives; rebuilding from any
permutation of the raw records yields the identical sequence provided any
two surviving records with equal composite sort keys map to equal
replicas. -/
theorem convert_sorted_deterministic
    (results results2 : List RawRecord) (es : List CMIP6Entry)
    (h : convertToSortedEntries results = some es) :
    es.Pairwise entryIdOrder ∧
    (results.Perm results2 →
      (∀ r1 ∈ results.filter recordValid, ∀ r2 ∈ results.filter recordValid,
        resultSortKey (fileVersions results) r1 = resultSortKey (fileVersions results) r2 →
        CMIP6Entry.ofResult r1 = CMIP6Entry.ofResult r2) →
      convertToSortedEntries results2 = some es) := by
  unfold convertToSortedEntries at h
  by_cases hv : (results.filter recordValid).all recordVocabOk
  · simp only [hv, if_true] at h
    have hes := Option.some.inj h
    subst hes
    constructor
    · exact List.Pairwise.sublist (dedupRuns_sublist _ _)
        (List.sorted_insertionSort entryIdOrder _)
    · intro hperm hresp
      have hpv : (results.filter recordValid).Perm (results2.filter recordValid) :=
        hperm.filter recordValid
      have hv2 : (results2.filter recordValid).all recordVocabOk = true := by
        rw [← permAllEq recordVocabOk hpv]
        exact hv
      unfold convertToSortedEntries
      simp only [hv2, if_true]
      have hV : fileVersions results2 = fileVersions results := by
        unfold fileVersions
        have hpm : (((results.filter recordValid).map (fun r => r.version)).insertionSort
            strGe).Perm
            (((results2.filter recordValid).map (fun r => r.version)).insertionSort strGe) :=
          (List.perm_insertionSort strGe _).trans
            ((hpv.map _).trans (List.perm_insertionSort strGe _).symm)
        have hmaps := sortedPermMapEq strGe id strGe_total _ _ hpm
          (List.sorted_insertionSort strGe _) (List.sorted_insertionSort strGe _)
          (fun a _ b _ hab hba => strGe_antisymm hab hba)
        simpa using hmaps.symm
      rw [hV]
      have hA : (((results2.filter recordValid).insertionSort
            (resultOrder (fileVersions results))).map CMIP6Entry.ofResult) =
          (((results.filter recordValid).insertionSort
            (resultOrder (fileVersions results))).map CMIP6Entry.ofResult) := by
        apply sortedPermMapEq (resultOrder (fileVersions results)) CMIP6Entry.ofResult
          (fun a b => lex3Le_total _ _)
        · exact (List.perm_insertionSort _ _).trans
            (hpv.symm.trans (List.perm_insertionSort _ _).symm)
        · exact List.sorted_insertionSort _ _
        · exact List.sorted_insertionSort _ _
        · intro a ha b hb hab hba
          have ha2 : a ∈ results.filter recordValid :=
            hpv.symm.subset ((List.perm_insertionSort _ _).subset ha)
          have hb2 : b ∈ results.filter recordValid :=
            hpv.symm.subset ((List.perm_insertionSort _ _).subset hb)
          exact hresp a ha2 b hb2 (lex3Le_antisymm hab hba)
      rw [hA]
  · simp only [hv, if_false] at h
    exact Option.noConfusion h

/-- C3 witness: the ordering-and-determinism theorem applied to the day/Oday
fixture and its transposition. -/
theorem convert_sorted_deterministic_witness :
    convertToSortedEntries [recDay, recODay] =
      some [CMIP6Entry.ofResult recODay, CMIP6Entry.ofResult recDay] ∧
    List.Pairwise entryIdOrder
      [CMIP6Entry.ofResult recODay, CMIP6Entry.ofResult recDay] ∧
    convertToSortedEntries [recODay, recDay] =
      some [CMIP6Entry.ofResult recODay, CMIP6Entry.ofResult recDay] :=
  ⟨by rfl,
   (convert_sorted_deterministic [recDay, recODay] [recODay, recDay]
     [CMIP6Entry.ofResult recODay, CMIP6Entry.ofResult recDay] (by rfl)).1,
   (convert_sorted_deterministic [recDay, recODay] [recODay, recDay]
     [CMIP6Entry.ofResult recODay, CMIP6Entry.ofResult recDay] (by rfl)).2
     (List.Perm.swap recODay recDay []) (by decide)⟩

/-- C6 witness: the idempotence theorem applied to the valid-local and
invalid-local environment fixtures. -/
theorem existing_local_file_spec_witness :
    envValidLocal.localExists = true ∧ envValidLocal.localValid = true ∧
    entryChk.download "root" envValidLocal =
      { result := Except.ok (entryChk.localFile "root"), finalFilePresent := true,
        transferred := false } ∧
    envInvalidLocal.localExists = true ∧ envInvalidLocal.localValid = false ∧
    (entryChk.download "root" envInvalidLocal).result =
      Except.error (EntryDownloadError.invalidLocal (entryChk.localFile "root")) :=
  ⟨rfl, rfl,
    (((existing_local_file_spec entryChk "root" envValidLocal rfl).1) rfl).1,
    rfl, rfl,
    (((existing_local_file_spec entryChk "root" envInvalidLocal rfl).2) rfl).1⟩

end CMIP6py
